import Mathlib

/-!
Verification of the coffee-brewing logger (`PADS_Final_Exam.py`) against its
design specification.

The embedding models Python values loaded from JSON by the inductive type
`PyVal` (the integer fragment of JSON: the program only ever writes integer
numbers, and no claim involves floating-point literals).  Python dictionaries
are association lists with Python's insertion-order/overwrite semantics.
Operations that can raise an uncaught Python exception (KeyError, TypeError,
AttributeError) return `Except String`.
-/

/-- A JSON value / plain Python data value (integer-number fragment). -/
inductive PyVal where
  | pyNone : PyVal
  | pyBool (b : Bool) : PyVal
  | pyInt (n : Int) : PyVal
  | pyStr (s : String) : PyVal
  | pyList (xs : List PyVal) : PyVal
  | pyDict (kvs : List (String × PyVal)) : PyVal

/-- `d.get(k, default)` on a plain association list of fields. -/
def jGetD : List (String × PyVal) → String → PyVal → PyVal
  | [], _, d => d
  | (k', v) :: rest, k, d => if k' = k then v else jGetD rest k d

/-- `k in d` for an object's field list. -/
def hasKey (kvs : List (String × PyVal)) (k : String) : Bool :=
  kvs.any (fun p => p.1 == k)

/-- Python dict assignment `d[k] = v`: overwrite in place if the key exists
(keeping its position, as Python dicts do), otherwise append. -/
def objInsert : List (String × PyVal) → String → PyVal → List (String × PyVal)
  | [], k, v => [(k, v)]
  | (k', v') :: rest, k, v =>
    if k' = k then (k, v) :: rest else (k', v') :: objInsert rest k v

/-- Python subscript `x[k]` with a string key: KeyError when a dict lacks the
key, TypeError when `x` is not a dict. -/
def pyIndex : PyVal → String → Except String PyVal
  | .pyDict kvs, k =>
    match kvs.find? (fun p => p.1 == k) with
    | some p => .ok p.2
    | none => .error "KeyError"
  | _, _ => .error "TypeError"

/-- Python `x.get(k, default)`: AttributeError when `x` is not a dict. -/
def pyGet : PyVal → String → PyVal → Except String PyVal
  | .pyDict kvs, k, d => .ok (jGetD kvs k d)
  | _, _, _ => .error "AttributeError"

/-- Python `x.items()`: AttributeError when `x` is not a dict. -/
def pyItems : PyVal → Except String (List (String × PyVal))
  | .pyDict kvs => .ok kvs
  | _ => .error "AttributeError"

/-- Python `for e in x`: lists yield elements, dicts yield their keys,
strings yield one-character strings; other values raise TypeError. -/
def pyIterList : PyVal → Except String (List PyVal)
  | .pyList l => .ok l
  | .pyDict kvs => .ok (kvs.map (fun p => PyVal.pyStr p.1))
  | .pyStr s => .ok (s.toList.map (fun c => PyVal.pyStr (String.singleton c)))
  | _ => .error "TypeError"

/-- Python `str.lower` on the ASCII fragment. -/
def pyLowerStr (s : String) : String :=
  String.mk (s.data.map Char.toLower)

/-- Python `str.strip`: drop leading and trailing whitespace. -/
def pyStrip (s : String) : String :=
  String.mk (((s.data.dropWhile Char.isWhitespace).reverse.dropWhile
    Char.isWhitespace).reverse)

/-- Python `x.lower()` (used on producer/name): AttributeError unless `x` is a
string. -/
def pyLower : PyVal → Except String String
  | .pyStr s => .ok (pyLowerStr s)
  | _ => .error "AttributeError"

/-- `BrewSession.__init__` state: a pour log, notes and a rating.  The fields
hold plain Python values: the program itself stores a list of
`{"weight": int, "time": int}` records, a string and an int, but
`BrewSession.from_dict` copies whatever the JSON document contained. -/
structure BrewSession where
  pour_times : PyVal
  notes : PyVal
  rating : PyVal

/-- `BrewSession()`: empty pour list, empty notes, sentinel rating 0. -/
def BrewSession.init : BrewSession :=
  { pour_times := .pyList [], notes := .pyStr "", rating := .pyInt 0 }

/-- `BrewSession.record_pour`: append one pour record to the pour log.
AttributeError if the pour log is not a list. -/
def BrewSession.record_pour (b : BrewSession) (weight pour_time : Int) :
    Except String BrewSession :=
  match b.pour_times with
  | .pyList l =>
    .ok { b with
          pour_times :=
            .pyList (l ++ [.pyDict [("weight", .pyInt weight), ("time", .pyInt pour_time)]]) }
  | _ => .error "AttributeError"

/-- `BrewSession.complete_brew`: finalize with rating and notes. -/
def BrewSession.complete_brew (b : BrewSession) (rating notes : PyVal) :
    BrewSession :=
  { b with rating := rating, notes := notes }

/-- `BrewSession.to_dict`. -/
def BrewSession.to_dict (b : BrewSession) : PyVal :=
  .pyDict [("pour_times", b.pour_times), ("notes", b.notes), ("rating", b.rating)]

/-- `BrewSession.from_dict`: read the three fields with their defaults.
AttributeError if `data` is not a dict (Python's `.get`). -/
def BrewSession.from_dict (data : PyVal) : Except String BrewSession :=
  match data with
  | .pyDict kvs =>
    .ok { pour_times := jGetD kvs "pour_times" (.pyList [])
          notes := jGetD kvs "notes" (.pyStr "")
          rating := jGetD kvs "rating" (.pyInt 0) }
  | _ => .error "AttributeError"

/-- `SpecificCoffee` (with the `Coffee` base-class attributes inlined: the
subclass adds only the brew-session list). -/
structure SpecificCoffee where
  producer : PyVal
  name : PyVal
  country : PyVal
  method : PyVal
  grind_size : PyVal
  brew_sessions : List BrewSession

/-- `SpecificCoffee.add_brew_session`. -/
def SpecificCoffee.add_brew_session (c : SpecificCoffee) (b : BrewSession) :
    SpecificCoffee :=
  { c with brew_sessions := c.brew_sessions ++ [b] }

/-- The in-memory collection `DataStorage.coffees`: a Python dict from the
identity key to the coffee record, as an insertion-ordered association list. -/
abbrev Coffees := List (String × SpecificCoffee)

/-- Python dict lookup `d.get(k)` on the collection. -/
def dictLookup : Coffees → String → Option SpecificCoffee
  | [], _ => none
  | (k', v) :: rest, k => if k' = k then some v else dictLookup rest k

/-- Python dict assignment `coffees[key] = sc` (overwrite in place or append). -/
def dictInsert : Coffees → String → SpecificCoffee → Coffees
  | [], k, v => [(k, v)]
  | (k', v') :: rest, k, v =>
    if k' = k then (k, v) :: rest else (k', v') :: dictInsert rest k v

/-- The keys of the collection, in insertion order. -/
def dictKeys (d : Coffees) : List String := d.map Prod.fst

/-- `DataStorage._load_from_new_structure`, iteration over
`coffee_beans.items()`: build one `SpecificCoffee` per key, loading its brew
list via `BrewSession.from_dict`, and store it with `coffees[key] = sc`. -/
def loadSessions : List PyVal → Except String (List BrewSession)
  | [] => .ok []
  | d :: rest => do
    let b ← BrewSession.from_dict d
    let bs ← loadSessions rest
    .ok (b :: bs)

/-- The per-key body of `_load_from_new_structure`'s loop. -/
def loadNewGo : List (String × PyVal) → Coffees → Except String Coffees
  | [], acc => .ok acc
  | (key, value) :: rest, acc => do
    let coffee_info ← pyIndex value "coffee"
    let producer ← pyIndex coffee_info "producer"
    let name ← pyIndex coffee_info "name"
    let country ← pyIndex coffee_info "country"
    let method ← pyIndex coffee_info "method"
    let grind_size ← pyIndex coffee_info "grind_size"
    let brewsRaw ← pyGet value "brews" (.pyList [])
    let brewList ← pyIterList brewsRaw
    let sessions ← loadSessions brewList
    loadNewGo rest
      (dictInsert acc key
        { producer := producer, name := name, country := country,
          method := method, grind_size := grind_size,
          brew_sessions := sessions })

/-- `DataStorage._load_from_new_structure`. -/
def load_from_new_structure (raw_data : PyVal) : Except String Coffees := do
  let coffee_beans ← pyGet raw_data "coffee_beans" (.pyDict [])
  let items ← pyItems coffee_beans
  loadNewGo items []

/-- The per-entry body of `DataStorage._convert_old_data`'s loop: extract the
embedded coffee descriptor (defaults for country/method/grind_size), build the
case-insensitive key, get-or-create the record, then append one session built
from the entry's own pour_times/notes/rating (with defaults). -/
def convertGo : Coffees → List PyVal → Except String Coffees
  | acc, [] => .ok acc
  | acc, brew :: rest => do
    let coffee_info ← pyIndex brew "coffee"
    let producerV ← pyIndex coffee_info "producer"
    let nameV ← pyIndex coffee_info "name"
    let country ← pyGet coffee_info "country" (.pyStr "")
    let method ← pyGet coffee_info "method" (.pyStr "")
    let grind_size ← pyGet coffee_info "grind_size" (.pyStr "")
    let p ← pyLower producerV
    let n ← pyLower nameV
    let key := p ++ "|" ++ n
    let pt ← pyGet brew "pour_times" (.pyList [])
    let nt ← pyGet brew "notes" (.pyStr "")
    let rt ← pyGet brew "rating" (.pyInt 0)
    let session : BrewSession := { pour_times := pt, notes := nt, rating := rt }
    let acc' :=
      match dictLookup acc key with
      | some sc => dictInsert acc key (sc.add_brew_session session)
      | none =>
        dictInsert acc key
          { producer := producerV, name := nameV, country := country,
            method := method, grind_size := grind_size,
            brew_sessions := [session] }
    convertGo acc' rest

/-- `DataStorage._convert_old_data`. -/
def convert_old_data (old_data_list : List PyVal) : Except String Coffees :=
  convertGo [] old_data_list

/-- The JSON document written by `DataStorage.save_data` for one coffee. -/
def coffeeEntryJson (cb : SpecificCoffee) : PyVal :=
  .pyDict [("coffee",
          .pyDict [("producer", cb.producer), ("name", cb.name),
                ("country", cb.country), ("method", cb.method),
                ("grind_size", cb.grind_size)]),
        ("brews", .pyList (cb.brew_sessions.map BrewSession.to_dict))]

/-- `DataStorage.save_data`: the whole-document JSON value passed to
`json.dump` (the document is modelled by its JSON value; `json.dump` /
`json.loads` of the byte representation are the standard library). -/
def save_data (coffees : Coffees) : PyVal :=
  .pyDict [("coffee_beans", .pyDict (coffees.map (fun kv => (kv.1, coffeeEntryJson kv.2))))]

/-- The shape dispatch of `DataStorage.load_data` after `json.loads`:
new structure / legacy list / unrecognized (fresh start). -/
def load_from_raw (raw_data : PyVal) : Except String Coffees :=
  match raw_data with
  | .pyDict kvs =>
    if hasKey kvs "coffee_beans" then load_from_new_structure (.pyDict kvs)
    else .ok []
  | .pyList l => convert_old_data l
  | _ => .ok []

/-- `DataStorage.get_or_create_coffee`.  Returns the record together with the
updated collection (Python mutates `self.coffees` in place; the record
returned by `self.coffees[key]` after an insert is the inserted one). -/
def get_or_create_coffee (coffees : Coffees)
    (producer name country method grind_size : String) :
    SpecificCoffee × Coffees :=
  let key := pyLowerStr producer ++ "|" ++ pyLowerStr name
  match dictLookup coffees key with
  | some sc => (sc, coffees)
  | none =>
    let sc : SpecificCoffee :=
      { producer := .pyStr producer, name := .pyStr name, country := .pyStr country,
        method := .pyStr method, grind_size := .pyStr grind_size,
        brew_sessions := [] }
    (sc, dictInsert coffees key sc)

/-- `DataStorage.find_coffee_brews`: normalized-key lookup, `None` if absent. -/
def find_coffee_brews (coffees : Coffees) (producer name : String) :
    Option SpecificCoffee :=
  dictLookup coffees (pyLowerStr producer ++ "|" ++ pyLowerStr name)

/-- Drop leading JSON whitespace (space, tab, CR, LF: exactly
`Char.isWhitespace`). -/
def skipWs (cs : List Char) : List Char := cs.dropWhile Char.isWhitespace

/-- One escape character inside a JSON string literal (the model omits
`\u` escapes). -/
def escapeChar (c : Char) : Option Char :=
  if c = '"' ∨ c = '\\' ∨ c = '/' then some c
  else if c = 'n' then some '\n'
  else if c = 't' then some '\t'
  else if c = 'r' then some '\r'
  else if c = 'b' then some (Char.ofNat 8)
  else if c = 'f' then some (Char.ofNat 12)
  else none

/-- Body of a JSON string literal, after the opening quote. -/
def parseStringBody : List Char → List Char → Option (String × List Char)
  | [], _ => none
  | '"' :: rest, acc => some (String.mk acc, rest)
  | '\\' :: c :: rest, acc =>
    match escapeChar c with
    | some e => parseStringBody rest (acc ++ [e])
    | none => none
  | '\\' :: [], _ => none
  | c :: rest, acc =>
    if c.toNat < 32 then none else parseStringBody rest (acc ++ [c])

/-- A JSON number (integer fragment: optional minus, digits, no leading
zeros). -/
def parseNum (cs : List Char) : Option (PyVal × List Char) :=
  let negAndRest : Bool × List Char :=
    match cs with
    | '-' :: rest => (true, rest)
    | _ => (false, cs)
  let ds := negAndRest.2.takeWhile Char.isDigit
  let rest := negAndRest.2.dropWhile Char.isDigit
  if ds.isEmpty then none
  else if ds.length > 1 ∧ ds.headI = '0' then none
  else
    let n : Nat := ds.foldl (fun a c => a * 10 + (c.toNat - 48)) 0
    some (.pyInt (if negAndRest.1 then -(n : Int) else (n : Int)), rest)

mutual

/-- Recursive-descent JSON value (model of `json.loads`'s grammar, integer
and non-unicode-escape fragment), with fuel for termination. -/
def parseVal : Nat → List Char → Option (PyVal × List Char)
  | 0, _ => none
  | f + 1, cs =>
    match skipWs cs with
    | 'n' :: 'u' :: 'l' :: 'l' :: rest => some (.pyNone, rest)
    | 't' :: 'r' :: 'u' :: 'e' :: rest => some (.pyBool true, rest)
    | 'f' :: 'a' :: 'l' :: 's' :: 'e' :: rest => some (.pyBool false, rest)
    | '"' :: rest =>
      match parseStringBody rest [] with
      | some (s, rest') => some (.pyStr s, rest')
      | none => none
    | '[' :: rest =>
      match skipWs rest with
      | ']' :: rest' => some (.pyList [], rest')
      | rest' => parseArrRest f rest' []
    | '{' :: rest =>
      match skipWs rest with
      | '}' :: rest' => some (.pyDict [], rest')
      | rest' => parseObjRest f rest' []
    | rest => parseNum rest

/-- Elements of a non-empty JSON array. -/
def parseArrRest : Nat → List Char → List PyVal → Option (PyVal × List Char)
  | 0, _, _ => none
  | f + 1, cs, acc =>
    match parseVal f cs with
    | none => none
    | some (v, rest) =>
      match skipWs rest with
      | ',' :: rest' => parseArrRest f rest' (acc ++ [v])
      | ']' :: rest' => some (.pyList (acc ++ [v]), rest')
      | _ => none

/-- Members of a non-empty JSON object; duplicate keys overwrite in place,
as building a Python dict does. -/
def parseObjRest : Nat → List Char → List (String × PyVal) →
    Option (PyVal × List Char)
  | 0, _, _ => none
  | f + 1, cs, acc =>
    match skipWs cs with
    | '"' :: rest =>
      match parseStringBody rest [] with
      | none => none
      | some (k, rest') =>
        match skipWs rest' with
        | ':' :: rest'' =>
          match parseVal f rest'' with
          | none => none
          | some (v, r3) =>
            match skipWs r3 with
            | ',' :: r4 => parseObjRest f r4 (objInsert acc k v)
            | '}' :: r4 => some (.pyDict (objInsert acc k v), r4)
            | _ => none
        | _ => none
    | _ => none

end

/-- `json.loads` on a whole document: one value, then only trailing
whitespace. -/
def parseJson (s : String) : Option PyVal :=
  match parseVal (2 * s.length + 4) s.toList with
  | some (v, rest) => if (skipWs rest).isEmpty then some v else none
  | none => none

/-- The backing file as seen by `DataStorage.load_data`: absent, or present
with some text content. -/
inductive FileState where
  | absent : FileState
  | present (content : String) : FileState

/-- What `load_data` produces: the collection, plus whether the corrupt-file
diagnostic message was printed. -/
structure LoadResult where
  coffees : Coffees
  diagnostic : Bool

/-- `DataStorage.load_data`.  `pyStrip` models `str.strip`; a parse
failure is the caught `json.JSONDecodeError` (diagnostic printed, empty
collection); exceptions raised by the shape conversions are not caught. -/
def load_data (fs : FileState) : Except String LoadResult :=
  match fs with
  | .absent => .ok { coffees := [], diagnostic := false }
  | .present content =>
    let c := pyStrip content
    if c = "" then .ok { coffees := [], diagnostic := false }
    else
      match parseJson c with
      | none => .ok { coffees := [], diagnostic := true }
      | some raw_data => do
        let coffees ← load_from_raw raw_data
        .ok { coffees := coffees, diagnostic := false }

/-- Python `int(x)` on a float: truncation toward zero.  The scripted clock
yields rational times. -/
def pyTrunc (q : ℚ) : Int :=
  if 0 ≤ q then ((q.num.toNat / q.den : Nat) : Int)
  else -(((-q.num).toNat / q.den : Nat) : Int)

/-- The input loop of `brew_timer`, over a scripted sequence of input lines
with the (rational) clock value at which each is processed.  Empty input
records `int(now - last_pour_time)` and resets the mark; `d` (after
strip/lower) leaves the loop; anything else is ignored.  After the loop, the
final trailing pour is measured at clock value `tf` (the read after the
display thread is joined).  `none` models a script that never finishes (the
loop would block forever). -/
def brew_timer_go (last : ℚ) (pours : List Int)
    (events : List (String × ℚ)) (tf : ℚ) : Option (List Int) :=
  match events with
  | [] => none
  | (s, t) :: rest =>
    let u := pyLowerStr (pyStrip s)
    if u = "" then brew_timer_go t (pours ++ [pyTrunc (t - last)]) rest tf
    else if u = "d" then some (pours ++ [pyTrunc (tf - last)])
    else brew_timer_go last pours rest tf

/-- `brew_timer` with a scripted clock: `t0` is `start_time` (which also
initializes `last_pour_time`), `events` the input lines with their times,
`tf` the clock value of the final-pour read.  The concurrent display thread
only renders and never touches the recorded data, so it is not modelled. -/
def brew_timer_run (t0 : ℚ) (events : List (String × ℚ)) (tf : ℚ) :
    Option (List Int) :=
  brew_timer_go t0 [] events tf

/-- The sequence of integer-truncated gaps between consecutive marks:
one per pour signal, plus the final trailing pour measured at `tf`. -/
def gapList : ℚ → List ℚ → ℚ → List Int
  | last, [], tf => [pyTrunc (tf - last)]
  | last, t :: ts, tf => pyTrunc (t - last) :: gapList t ts tf

/-- Number of pour signals (empty inputs) a script delivers before its first
finish signal. -/
def pourCount : List (String × ℚ) → Nat
  | [] => 0
  | (s, _) :: rest =>
    let u := pyLowerStr (pyStrip s)
    if u = "" then pourCount rest + 1
    else if u = "d" then 0
    else pourCount rest

/-- Python `str.isdigit` on the ASCII fragment: nonempty, all digits. -/
def pyIsDigit (s : String) : Bool :=
  !s.isEmpty && s.toList.all Char.isDigit

/-- Python `int(s)` for a digit string. -/
def pyStrToNat (s : String) : Nat :=
  s.toList.foldl (fun a c => a * 10 + (c.toNat - 48)) 0

/-- The rating prompt of the menu loop (`main`, option 1): keep asking until
the stripped input is a digit string whose value lies in `[1, 100]`; return
that value.  `none` models running out of scripted inputs (the loop would
keep prompting). -/
def rating_input_loop : List String → Option Nat
  | [] => none
  | s :: rest =>
    let t := pyStrip s
    if pyIsDigit t ∧ 1 ≤ pyStrToNat t ∧ pyStrToNat t ≤ 100 then
      some (pyStrToNat t)
    else rating_input_loop rest

/-- A well-formed legacy brew entry: producer and name are strings (the code
calls `.lower()` on them), every other field optional (absent fields take the
code's defaults).  Field values themselves are arbitrary JSON values. -/
structure LegacyEntry where
  producer : String
  name : String
  country : Option PyVal
  method : Option PyVal
  grind_size : Option PyVal
  pour_times : Option PyVal
  notes : Option PyVal
  rating : Option PyVal

/-- Encode an optional field of a legacy entry. -/
def optField (k : String) : Option PyVal → List (String × PyVal)
  | none => []
  | some v => [(k, v)]

/-- The embedded coffee descriptor of a legacy entry, as JSON. -/
def encodeCoffee (e : LegacyEntry) : PyVal :=
  .pyDict (("producer", .pyStr e.producer) :: ("name", .pyStr e.name) ::
        (optField "country" e.country ++
          (optField "method" e.method ++ optField "grind_size" e.grind_size)))

/-- A legacy brew entry, as JSON. -/
def encodeLegacy (e : LegacyEntry) : PyVal :=
  .pyDict (("coffee", encodeCoffee e) ::
        (optField "pour_times" e.pour_times ++
          (optField "notes" e.notes ++ optField "rating" e.rating)))

/-- The case-insensitive identity key of a legacy entry. -/
def keyOf (e : LegacyEntry) : String :=
  pyLowerStr e.producer ++ "|" ++ pyLowerStr e.name

/-- The brew session a legacy entry migrates to (defaults for absent
fields). -/
def sessionOf (e : LegacyEntry) : BrewSession :=
  { pour_times := e.pour_times.getD (.pyList [])
    notes := e.notes.getD (.pyStr "")
    rating := e.rating.getD (.pyInt 0) }

/-- The coffee record created for a legacy entry, with the given session
list. -/
def recordOf (e : LegacyEntry) (sessions : List BrewSession) : SpecificCoffee :=
  { producer := .pyStr e.producer, name := .pyStr e.name
    country := e.country.getD (.pyStr "")
    method := e.method.getD (.pyStr "")
    grind_size := e.grind_size.getD (.pyStr "")
    brew_sessions := sessions }

/-- Modelled from the spec's words (§4.2, migration): group the legacy list
by the case-insensitive key; one record per distinct key, in order of first
occurrence; that record's descriptive fields come from the first entry with
the key, and its sessions are the sessions of all entries with the key, in
original list order. -/
def specMigrate : List LegacyEntry → Coffees
  | [] => []
  | e :: rest =>
    (keyOf e,
      recordOf e
        (sessionOf e ::
          (rest.filter (fun x => keyOf x == keyOf e)).map sessionOf))
    :: specMigrate (rest.filter (fun x => keyOf x != keyOf e))
termination_by l => l.length
decreasing_by
  simp only [List.length_cons]
  exact Nat.lt_succ_of_le (List.length_filter_le _ _)

/-- A parsed document shape `load_data` treats as empty without any message:
neither a dict containing `coffee_beans` nor a list. -/
def unrecognizedShape : PyVal → Bool
  | .pyDict kvs => !hasKey kvs "coffee_beans"
  | .pyList _ => false
  | _ => true

/-- Appending, to an already-created record, the sessions of all further
legacy entries that share its key (used to state the migration invariant). -/
def groupUpdate (es : List LegacyEntry) (kv : String × SpecificCoffee) :
    String × SpecificCoffee :=
  (kv.1,
    { kv.2 with
      brew_sessions :=
        kv.2.brew_sessions ++
          ((es.filter (fun e => keyOf e == kv.1)).map sessionOf) })

/-- One iteration of `_convert_old_data`'s loop, restricted to a well-formed
legacy entry (the successful path of the extraction in `convertGo`). -/
def migrateStep (acc : Coffees) (e : LegacyEntry) : Coffees :=
  match dictLookup acc (keyOf e) with
  | some sc => dictInsert acc (keyOf e) (sc.add_brew_session (sessionOf e))
  | none => dictInsert acc (keyOf e) (recordOf e [sessionOf e])

/-- `_convert_old_data`'s loop over well-formed legacy entries. -/
def migrateFold : Coffees → List LegacyEntry → Coffees
  | acc, [] => acc
  | acc, e :: rest => migrateFold (migrateStep acc e) rest

/-- Whether a legacy entry's key is not yet present in the accumulator. -/
def newKeyIn (acc : Coffees) (e : LegacyEntry) : Bool :=
  (dictLookup acc (keyOf e)).isNone

theorem dictLookup_dictInsert (d : Coffees) (k : String) (v : SpecificCoffee)
    (k' : String) :
    dictLookup (dictInsert d k v) k' =
      if k = k' then some v else dictLookup d k' := by
  induction d with
  | nil => simp [dictInsert, dictLookup]
  | cons hd tl ih =>
    obtain ⟨a, b⟩ := hd
    by_cases hak : a = k
    · subst hak
      simp only [dictInsert, if_pos rfl, dictLookup]
      by_cases hk' : a = k'
      · simp [hk']
      · simp [hk']
    · simp only [dictInsert, if_neg hak, dictLookup]
      by_cases hk' : a = k'
      · subst hk'
        rw [if_neg (fun h : k = a => hak h.symm)]
        simp
      · simp [hk', ih]

theorem dictInsert_of_lookup_none (d : Coffees) (k : String)
    (v : SpecificCoffee) (h : dictLookup d k = none) :
    dictInsert d k v = d ++ [(k, v)] := by
  induction d with
  | nil => simp [dictInsert]
  | cons hd tl ih =>
    obtain ⟨a, b⟩ := hd
    simp only [dictLookup] at h
    by_cases hak : a = k
    · simp [hak] at h
    · simp only [dictInsert, if_neg hak, List.cons_append, List.cons.injEq,
        true_and]
      exact ih (by simpa [hak] using h)

theorem dictLookup_none_iff (d : Coffees) (k : String) :
    dictLookup d k = none ↔ k ∉ dictKeys d := by
  induction d with
  | nil => simp [dictLookup, dictKeys]
  | cons hd tl ih =>
    obtain ⟨a, b⟩ := hd
    by_cases hak : a = k
    · subst hak; simp [dictLookup, dictKeys]
    · simp only [dictLookup, if_neg hak]
      rw [ih]
      simp only [dictKeys, List.map_cons, List.mem_cons]
      have hka : ¬k = a := fun h => hak h.symm
      tauto

theorem load_from_raw_unrecognized (j : PyVal) (h : unrecognizedShape j = true) :
    load_from_raw j = .ok [] := by
  cases j <;> simp_all [unrecognizedShape, load_from_raw]

/-- Claim C5 — corrupt-document recovery: a present file whose (stripped)
content is non-empty but fails to parse as JSON makes `load_data` return the
empty collection with the diagnostic message printed, and no exception
escapes the call (the result is `.ok`). -/
theorem claim_C5 (content : String) (h1 : pyStrip content ≠ "")
    (h2 : parseJson (pyStrip content) = none) :
    load_data (.present content) = .ok { coffees := [], diagnostic := true } := by
  simp only [load_data, if_neg h1, h2]

/-- Witness for C5 at the spec's concrete input `"{not json"`. -/
theorem claim_C5_witness :
    pyStrip "\x7bnot json" ≠ "" ∧
    parseJson (pyStrip "\x7bnot json") = none ∧
    load_data (.present "\x7bnot json") =
      .ok { coffees := [], diagnostic := true } :=
  ⟨by decide, by rfl, claim_C5 "\x7bnot json" (by decide) (by rfl)⟩

/-- Claim C10 — implicit: a present file whose content is empty or
whitespace-only loads as the empty collection with no diagnostic (the code
returns before parsing), even though such content is not parseable JSON. -/
theorem claim_C10 (content : String) (h : pyStrip content = "") :
    load_data (.present content) = .ok { coffees := [], diagnostic := false } ∧
    parseJson (pyStrip content) = none := by
  constructor
  · simp only [load_data, if_pos h]
  · rw [h]; rfl

/-- Witness for C10 at a whitespace-only content. -/
theorem claim_C10_witness :
    pyStrip "  \n\t " = "" ∧
    (load_data (.present "  \n\t ") =
        .ok { coffees := [], diagnostic := false } ∧
      parseJson (pyStrip "  \n\t ") = none) :=
  ⟨by decide, claim_C10 "  \n\t " (by decide)⟩

/-- Claim C8 — non-error empty fallbacks: an absent file loads as the empty
collection without error or diagnostic; and a present file that parses to a
JSON value that is neither an object containing `coffee_beans` nor a
top-level list silently loads as the empty collection. -/
theorem claim_C8 :
    load_data .absent = .ok { coffees := [], diagnostic := false } ∧
    ∀ (content : String) (j : PyVal),
      parseJson (pyStrip content) = some j → unrecognizedShape j = true →
      load_data (.present content) =
        .ok { coffees := [], diagnostic := false } := by
  refine ⟨rfl, fun content j hp hshape => ?_⟩
  have hne : pyStrip content ≠ "" := by
    intro h
    rw [h] at hp
    exact Option.noConfusion ((rfl : parseJson "" = none) ▸ hp)
  simp only [load_data, if_neg hne, hp, load_from_raw_unrecognized j hshape]
  rfl

/-- Witness for C8 at the content `"42"` (parses to a bare number). -/
theorem claim_C8_witness :
    parseJson (pyStrip "42") = some (.pyInt 42) ∧
    unrecognizedShape (.pyInt 42) = true ∧
    load_data (.present "42") = .ok { coffees := [], diagnostic := false } :=
  ⟨by rfl, by rfl, claim_C8.2 "42" (.pyInt 42) (by rfl) (by rfl)⟩

theorem rating_input_loop_bounds (inputs : List String) (r : Nat)
    (h : rating_input_loop inputs = some r) : 1 ≤ r ∧ r ≤ 100 := by
  induction inputs with
  | nil => exact Option.noConfusion h
  | cons s rest ih =>
    simp only [rating_input_loop] at h
    split at h
    · next hcond =>
      cases h
      exact ⟨hcond.2.1, hcond.2.2⟩
    · exact ih h

/-- Claim C4 — rating invariant: a fresh `BrewSession` carries the sentinel
rating 0, recording pours never changes the rating, and the completion step
of the program (the validated rating prompt followed by `complete_brew`)
always stores an integer in `[1, 100]`. -/
theorem claim_C4 :
    BrewSession.init.rating = .pyInt 0 ∧
    (∀ (b : BrewSession) (w t : Int) (b' : BrewSession),
      BrewSession.record_pour b w t = .ok b' → b'.rating = b.rating) ∧
    (∀ (inputs : List String) (r : Nat),
      rating_input_loop inputs = some r →
      1 ≤ r ∧ r ≤ 100 ∧
        ∀ (b : BrewSession) (notes : PyVal),
          (BrewSession.complete_brew b (.pyInt r) notes).rating = .pyInt r) := by
  refine ⟨rfl, ?_, ?_⟩
  · intro b w t b' h
    unfold BrewSession.record_pour at h
    split at h
    · cases h; rfl
    · exact Except.noConfusion h
  · intro inputs r h
    obtain ⟨h1, h2⟩ := rating_input_loop_bounds inputs r h
    exact ⟨h1, h2, fun b notes => rfl⟩

/-- Witness for C4: a concrete fresh session, pour, and accepted rating. -/
theorem claim_C4_witness :
    BrewSession.record_pour BrewSession.init 60 30 =
      .ok { pour_times := .pyList [.pyDict [("weight", .pyInt 60), ("time", .pyInt 30)]],
            notes := .pyStr "", rating := .pyInt 0 } ∧
    ({ pour_times := .pyList [.pyDict [("weight", .pyInt 60), ("time", .pyInt 30)]],
       notes := .pyStr "", rating := .pyInt 0 } : BrewSession).rating =
      BrewSession.init.rating ∧
    rating_input_loop ["87"] = some 87 ∧
    (1 ≤ 87 ∧ 87 ≤ 100 ∧
      ∀ (b : BrewSession) (notes : PyVal),
        (BrewSession.complete_brew b (.pyInt 87) notes).rating = .pyInt 87) :=
  ⟨rfl, claim_C4.2.1 BrewSession.init 60 30 _ rfl, rfl,
    claim_C4.2.2 ["87"] 87 rfl⟩

/-- Claim C2 — key normalization: after `get_or_create_coffee p n …`,
`find_coffee_brews p' n'` for any case-variants `p'`, `n'` (equal after
lowercasing) returns exactly the record `get_or_create_coffee` returned. -/
theorem claim_C2 (coffees : Coffees) (p n c m g p' n' : String)
    (hp : pyLowerStr p' = pyLowerStr p) (hn : pyLowerStr n' = pyLowerStr n) :
    find_coffee_brews (get_or_create_coffee coffees p n c m g).2 p' n' =
      some (get_or_create_coffee coffees p n c m g).1 := by
  unfold find_coffee_brews get_or_create_coffee
  rw [hp, hn]
  cases hlk : dictLookup coffees (pyLowerStr p ++ "|" ++ pyLowerStr n) with
  | some sc => simp [hlk]
  | none => simp [hlk, dictLookup_dictInsert]

/-- Witness for C2 at the spec's example case-variants. -/
theorem claim_C2_witness :
    pyLowerStr "finca el paraiso" = pyLowerStr "Finca El Paraiso" ∧
    pyLowerStr "GESHA" = pyLowerStr "Gesha" ∧
    find_coffee_brews
        (get_or_create_coffee [] "Finca El Paraiso" "Gesha" "Colombia"
          "Washed" "Fine").2 "finca el paraiso" "GESHA" =
      some (get_or_create_coffee [] "Finca El Paraiso" "Gesha" "Colombia"
          "Washed" "Fine").1 :=
  ⟨by decide, by decide,
    claim_C2 [] "Finca El Paraiso" "Gesha" "Colombia" "Washed" "Fine"
      "finca el paraiso" "GESHA" (by decide) (by decide)⟩

/-- Claim C6 — `get_or_create_coffee` frame property: on an existing
normalized key it returns the stored record unchanged and leaves the
collection untouched (the country/method/grind_size arguments are ignored);
on an absent key it returns a new record with exactly the given attributes
and no sessions, inserts it under the key, and leaves every other key's
binding unchanged. -/
theorem claim_C6 (coffees : Coffees) (p n c m g : String) :
    (∀ r0, dictLookup coffees (pyLowerStr p ++ "|" ++ pyLowerStr n) = some r0 →
      (get_or_create_coffee coffees p n c m g).1 = r0 ∧
      (get_or_create_coffee coffees p n c m g).2 = coffees) ∧
    (dictLookup coffees (pyLowerStr p ++ "|" ++ pyLowerStr n) = none →
      (get_or_create_coffee coffees p n c m g).1 =
        { producer := .pyStr p, name := .pyStr n, country := .pyStr c,
          method := .pyStr m, grind_size := .pyStr g, brew_sessions := [] } ∧
      dictLookup (get_or_create_coffee coffees p n c m g).2
          (pyLowerStr p ++ "|" ++ pyLowerStr n) =
        some (get_or_create_coffee coffees p n c m g).1 ∧
      ∀ k', k' ≠ pyLowerStr p ++ "|" ++ pyLowerStr n →
        dictLookup (get_or_create_coffee coffees p n c m g).2 k' =
          dictLookup coffees k') := by
  constructor
  · intro r0 h
    simp [get_or_create_coffee, h]
  · intro h
    simp only [get_or_create_coffee, h]
    refine ⟨by trivial, ?_, ?_⟩
    · simp [dictLookup_dictInsert]
    · intro k' hk'
      simp only [dictLookup_dictInsert]
      rw [if_neg (fun hh => hk' hh.symm)]

/-- Witness for C6: an existing key keeps its first-written descriptive
fields and sessions even when called with different attribute arguments. -/
theorem claim_C6_witness :
    dictLookup [("acme|ye",
        { producer := .pyStr "Acme", name := .pyStr "Ye", country := .pyStr "Kenya",
          method := .pyStr "Washed", grind_size := .pyStr "Fine",
          brew_sessions := [BrewSession.init] })] (pyLowerStr "ACME" ++ "|" ++ pyLowerStr "Ye") =
      some { producer := .pyStr "Acme", name := .pyStr "Ye", country := .pyStr "Kenya",
             method := .pyStr "Washed", grind_size := .pyStr "Fine",
             brew_sessions := [BrewSession.init] } ∧
    (get_or_create_coffee [("acme|ye",
        { producer := .pyStr "Acme", name := .pyStr "Ye", country := .pyStr "Kenya",
          method := .pyStr "Washed", grind_size := .pyStr "Fine",
          brew_sessions := [BrewSession.init] })] "ACME" "Ye" "Peru" "Honey" "Coarse").1 =
      { producer := .pyStr "Acme", name := .pyStr "Ye", country := .pyStr "Kenya",
        method := .pyStr "Washed", grind_size := .pyStr "Fine",
        brew_sessions := [BrewSession.init] } ∧
    (get_or_create_coffee [("acme|ye",
        { producer := .pyStr "Acme", name := .pyStr "Ye", country := .pyStr "Kenya",
          method := .pyStr "Washed", grind_size := .pyStr "Fine",
          brew_sessions := [BrewSession.init] })] "ACME" "Ye" "Peru" "Honey" "Coarse").2 =
      [("acme|ye",
        { producer := .pyStr "Acme", name := .pyStr "Ye", country := .pyStr "Kenya",
          method := .pyStr "Washed", grind_size := .pyStr "Fine",
          brew_sessions := [BrewSession.init] })] := by
  refine ⟨by rfl, ?_⟩
  exact (claim_C6 [("acme|ye",
      { producer := .pyStr "Acme", name := .pyStr "Ye", country := .pyStr "Kenya",
        method := .pyStr "Washed", grind_size := .pyStr "Fine",
        brew_sessions := [BrewSession.init] })] "ACME" "Ye" "Peru" "Honey"
      "Coarse").1 _ (by rfl)

theorem pyTrunc_nonneg (q : ℚ) (h : 0 ≤ q) : 0 ≤ pyTrunc q := by
  unfold pyTrunc
  rw [if_pos h]
  exact Int.ofNat_nonneg _

theorem pyTrunc_le (q : ℚ) (h : 0 ≤ q) : (pyTrunc q : ℚ) ≤ q := by
  unfold pyTrunc
  rw [if_pos h]
  have hd : (0 : ℚ) < (q.den : ℚ) := by exact_mod_cast q.den_pos
  have hnum : (0 : ℤ) ≤ q.num := Rat.num_nonneg.mpr h
  conv_rhs => rw [← Rat.num_div_den q]
  rw [le_div_iff₀ hd]
  have h2 : ((q.num.toNat / q.den : Nat) : ℚ) * (q.den : ℚ) ≤
      ((q.num.toNat : Nat) : ℚ) := by
    exact_mod_cast Nat.div_mul_le_self q.num.toNat q.den
  have h3 : ((q.num.toNat : Nat) : ℚ) = (q.num : ℚ) := by
    exact_mod_cast congrArg (fun z : ℤ => (z : ℚ)) (Int.toNat_of_nonneg hnum)
  push_cast at h2 h3 ⊢
  calc ((q.num.toNat / q.den : Nat) : ℚ) * (q.den : ℚ) ≤ _ := h2
    _ = (q.num : ℚ) := h3

theorem brew_timer_go_length (events : List (String × ℚ)) :
    ∀ (last tf : ℚ) (pours ds : List Int),
      brew_timer_go last pours events tf = some ds →
      ds.length = pours.length + pourCount events + 1 := by
  induction events with
  | nil => intro last tf pours ds h; exact Option.noConfusion h
  | cons ev rest ih =>
    intro last tf pours ds h
    obtain ⟨s, t⟩ := ev
    simp only [brew_timer_go] at h
    by_cases hu : pyLowerStr (pyStrip s) = ""
    · rw [if_pos hu] at h
      have := ih t tf (pours ++ [pyTrunc (t - last)]) ds h
      simp only [pourCount, hu, if_pos rfl] at *
      simp [this]
      omega
    · rw [if_neg hu] at h
      by_cases hd : pyLowerStr (pyStrip s) = "d"
      · rw [if_pos hd] at h
        cases h
        simp [pourCount, hu, hd]
      · rw [if_neg hd] at h
        have := ih last tf pours ds h
        simp only [pourCount, hu, hd] at *
        simp [this]

/-- Claim C9 — implicit trailing pour: whenever `brew_timer` (scripted) runs
to completion, the returned sequence has one entry per pour signal plus an
unconditional trailing entry appended after the finish signal, so it is never
empty — a finish with zero prior pours still yields a one-element sequence. -/
theorem claim_C9 (t0 tf : ℚ) (events : List (String × ℚ)) (ds : List Int)
    (h : brew_timer_run t0 events tf = some ds) :
    ds.length = pourCount events + 1 ∧ ds ≠ [] := by
  have hl := brew_timer_go_length events t0 tf [] ds h
  simp only [List.length_nil, Nat.zero_add] at hl
  refine ⟨hl, ?_⟩
  intro hnil
  rw [hnil] at hl
  simp at hl

/-- Witness for C9: a finish signal with zero prior pours returns a
one-element sequence. -/
theorem claim_C9_witness :
    brew_timer_run 0 [("d", 1)] 2 = some [2] ∧
    ([2] : List Int).length = pourCount [("d", 1)] + 1 ∧ ([2] : List Int) ≠ [] := by
  have hrun : brew_timer_run 0 [("d", (1:ℚ))] 2 = some [2] := by
    simp only [brew_timer_run, brew_timer_go,
      (by decide : pyLowerStr (pyStrip "d") = "d")]
    simp only [if_true, List.nil_append, sub_zero,
      (by decide : pyTrunc 2 = 2)]
    rw [if_neg (by decide : ¬("d" = ""))]
  exact ⟨hrun, claim_C9 0 2 [("d", 1)] [2] hrun⟩

theorem brew_timer_go_script (ts : List ℚ) (td : ℚ) :
    ∀ (last tf : ℚ) (pours : List Int),
      brew_timer_go last pours (ts.map (fun t => ("", t)) ++ [("d", td)]) tf =
        some (pours ++ gapList last ts tf) := by
  induction ts with
  | nil =>
    intro last tf pours
    simp only [List.map_nil, List.nil_append, brew_timer_go,
      (by decide : pyLowerStr (pyStrip "d") = "d")]
    simp [gapList]
  | cons t ts ih =>
    intro last tf pours
    simp only [List.map_cons, List.cons_append, brew_timer_go,
      (by decide : pyLowerStr (pyStrip "") = "")]
    simp only [if_true, List.append_eq]
    rw [ih t tf (pours ++ [pyTrunc (t - last)])]
    simp [gapList]

theorem gapList_length (ts : List ℚ) :
    ∀ (last tf : ℚ), (gapList last ts tf).length = ts.length + 1 := by
  induction ts with
  | nil => intro last tf; simp [gapList]
  | cons t ts ih => intro last tf; simp [gapList, ih]

theorem gapList_nonneg (ts : List ℚ) :
    ∀ (last tf : ℚ), List.Chain (· < ·) last (ts ++ [tf]) →
      ∀ d ∈ gapList last ts tf, 0 ≤ d := by
  induction ts with
  | nil =>
    intro last tf hchain d hd
    simp only [List.nil_append, List.chain_cons] at hchain
    simp only [gapList, List.mem_singleton] at hd
    subst hd
    exact pyTrunc_nonneg _ (by linarith [hchain.1])
  | cons t ts ih =>
    intro last tf hchain d hd
    simp only [List.cons_append, List.chain_cons] at hchain
    simp only [gapList, List.mem_cons] at hd
    rcases hd with hd | hd
    · subst hd
      exact pyTrunc_nonneg _ (by linarith [hchain.1])
    · exact ih t tf hchain.2 d hd

theorem gapList_sum (ts : List ℚ) :
    ∀ (last tf : ℚ), List.Chain (· < ·) last (ts ++ [tf]) →
      (((gapList last ts tf).sum : Int) : ℚ) ≤ tf - last := by
  induction ts with
  | nil =>
    intro last tf hchain
    simp only [List.nil_append, List.chain_cons] at hchain
    simp only [gapList, List.sum_cons, List.sum_nil, add_zero]
    exact_mod_cast pyTrunc_le _ (by linarith [hchain.1])
  | cons t ts ih =>
    intro last tf hchain
    simp only [List.cons_append, List.chain_cons] at hchain
    have h1 : ((pyTrunc (t - last) : Int) : ℚ) ≤ t - last :=
      pyTrunc_le _ (by linarith [hchain.1])
    have h2 := ih t tf hchain.2
    simp only [gapList, List.sum_cons]
    push_cast at h2 ⊢
    linarith

/-- Claim C7 — timer duration sum (line-oriented variant, scripted clock):
for pour signals at times `t0 < t1 < … < tn < tf` followed by a finish
signal, `brew_timer` returns exactly the integer-truncated gaps between
consecutive marks (with the implied trailing pour measured at `tf`), of
length `n + 1`; every entry is non-negative and the entries sum to at most
`(tf - t0)` plus one second of rounding slack per entry. -/
theorem claim_C7 (t0 td tf : ℚ) (ts : List ℚ)
    (hchain : List.Chain (· < ·) t0 (ts ++ [tf])) :
    brew_timer_run t0 (ts.map (fun t => ("", t)) ++ [("d", td)]) tf =
      some (gapList t0 ts tf) ∧
    (gapList t0 ts tf).length = ts.length + 1 ∧
    (∀ d ∈ gapList t0 ts tf, 0 ≤ d) ∧
    (((gapList t0 ts tf).sum : Int) : ℚ) ≤
      (tf - t0) + ((gapList t0 ts tf).length : ℚ) := by
  refine ⟨?_, gapList_length ts t0 tf, gapList_nonneg ts t0 tf hchain, ?_⟩
  · have := brew_timer_go_script ts td t0 tf []
    simpa [brew_timer_run] using this
  · have h1 := gapList_sum ts t0 tf hchain
    have h2 : (0 : ℚ) ≤ ((gapList t0 ts tf).length : ℚ) := by positivity
    linarith

/-- Witness for C7: pours at times 2 and 3 after a start at 0, finish read at
5, give the gap sequence `[2, 1, 2]`. -/
theorem claim_C7_witness :
    List.Chain (· < ·) (0 : ℚ) ([2, 3] ++ [5]) ∧
    (brew_timer_run 0 (([2, 3] : List ℚ).map (fun t => ("", t)) ++ [("d", 4)]) 5 =
        some (gapList 0 [2, 3] 5) ∧
      (gapList 0 [2, 3] 5).length = ([2, 3] : List ℚ).length + 1 ∧
      (∀ d ∈ gapList 0 [2, 3] 5, 0 ≤ d) ∧
      (((gapList 0 [2, 3] 5).sum : Int) : ℚ) ≤
        (5 - 0) + ((gapList 0 [2, 3] 5).length : ℚ)) := by
  have hch : List.Chain (· < ·) (0 : ℚ) ([2, 3] ++ [5]) := by
    simp only [List.cons_append, List.nil_append, List.chain_cons]
    exact ⟨by decide, by decide, by decide, List.Chain.nil⟩
  exact ⟨hch, claim_C7 0 4 5 [2, 3] hch⟩

theorem from_dict_to_dict (b : BrewSession) :
    BrewSession.from_dict (BrewSession.to_dict b) = .ok b := by
  cases b
  simp [BrewSession.to_dict, BrewSession.from_dict, jGetD]

theorem loadSessions_to_dict (l : List BrewSession) :
    loadSessions (l.map BrewSession.to_dict) = .ok l := by
  induction l with
  | nil => rfl
  | cons b rest ih =>
    simp [loadSessions, from_dict_to_dict, ih, Bind.bind, Except.bind]

theorem exceptBind_ok {ε α β : Type} (a : α) (f : α → Except ε β) :
    (Except.ok a : Except ε α) >>= f = f a := rfl

theorem coffeeEntry_coffee (sc : SpecificCoffee) :
    pyIndex (coffeeEntryJson sc) "coffee" =
      .ok (.pyDict [("producer", sc.producer), ("name", sc.name),
        ("country", sc.country), ("method", sc.method),
        ("grind_size", sc.grind_size)]) := rfl

theorem coffeeInfo_producer (sc : SpecificCoffee) :
    pyIndex (.pyDict [("producer", sc.producer), ("name", sc.name),
      ("country", sc.country), ("method", sc.method),
      ("grind_size", sc.grind_size)]) "producer" = .ok sc.producer := rfl

theorem coffeeInfo_name (sc : SpecificCoffee) :
    pyIndex (.pyDict [("producer", sc.producer), ("name", sc.name),
      ("country", sc.country), ("method", sc.method),
      ("grind_size", sc.grind_size)]) "name" = .ok sc.name := rfl

theorem coffeeInfo_country (sc : SpecificCoffee) :
    pyIndex (.pyDict [("producer", sc.producer), ("name", sc.name),
      ("country", sc.country), ("method", sc.method),
      ("grind_size", sc.grind_size)]) "country" = .ok sc.country := rfl

theorem coffeeInfo_method (sc : SpecificCoffee) :
    pyIndex (.pyDict [("producer", sc.producer), ("name", sc.name),
      ("country", sc.country), ("method", sc.method),
      ("grind_size", sc.grind_size)]) "method" = .ok sc.method := rfl

theorem coffeeInfo_grind (sc : SpecificCoffee) :
    pyIndex (.pyDict [("producer", sc.producer), ("name", sc.name),
      ("country", sc.country), ("method", sc.method),
      ("grind_size", sc.grind_size)]) "grind_size" = .ok sc.grind_size := rfl

theorem coffeeEntry_brews (sc : SpecificCoffee) :
    pyGet (coffeeEntryJson sc) "brews" (.pyList []) =
      .ok (.pyList (sc.brew_sessions.map BrewSession.to_dict)) := rfl

theorem loadNewGo_save (st : Coffees) :
    ∀ acc : Coffees,
      (∀ k, k ∈ dictKeys st → k ∉ dictKeys acc) → (dictKeys st).Nodup →
      loadNewGo (st.map (fun kv => (kv.1, coffeeEntryJson kv.2))) acc =
        .ok (acc ++ st) := by
  induction st with
  | nil => intro acc _ _; simp [loadNewGo]
  | cons hd rest ih =>
    intro acc hdisj hnd
    obtain ⟨k, sc⟩ := hd
    simp only [List.map_cons, loadNewGo]
    rw [coffeeEntry_coffee sc, exceptBind_ok]
    rw [coffeeInfo_producer sc, exceptBind_ok]
    rw [coffeeInfo_name sc, exceptBind_ok]
    rw [coffeeInfo_country sc, exceptBind_ok]
    rw [coffeeInfo_method sc, exceptBind_ok]
    rw [coffeeInfo_grind sc, exceptBind_ok]
    rw [coffeeEntry_brews sc, exceptBind_ok]
    rw [show pyIterList (.pyList (sc.brew_sessions.map BrewSession.to_dict)) =
      .ok (sc.brew_sessions.map BrewSession.to_dict) from rfl, exceptBind_ok]
    rw [loadSessions_to_dict, exceptBind_ok]
    have hknotin : k ∉ dictKeys acc := hdisj k (by simp [dictKeys])
    have hnone : dictLookup acc k = none := (dictLookup_none_iff acc k).mpr hknotin
    rw [dictInsert_of_lookup_none acc k _ hnone]
    have hrest := ih (acc ++ [(k, sc)])
      (by
        intro k' hk' hk'mem
        simp only [dictKeys, List.map_append, List.mem_append] at hk'mem
        rcases hk'mem with h | h
        · refine hdisj k' ?_ h
          simp only [dictKeys, List.map_cons, List.mem_cons]
          exact Or.inr (by simpa [dictKeys] using hk')
        · simp only [List.map_cons, List.map_nil, List.mem_singleton] at h
          subst h
          simp only [dictKeys, List.map_cons, List.nodup_cons] at hnd
          exact hnd.1 hk')
      (by simp only [dictKeys, List.map_cons, List.nodup_cons] at hnd; exact hnd.2)
    rw [hrest]
    simp

/-- Claim C1 — round-trip through storage: for any non-empty collection,
writing the document with `save_data` and loading it back through the
load-path dispatch yields exactly the original collection (same keys in the
same order, same coffee attributes, same brew sessions in order).  The
no-duplicate-keys hypothesis is automatic for a Python dict. -/
theorem claim_C1 (coffees : Coffees) (hnd : (dictKeys coffees).Nodup)
    (_hne : coffees ≠ []) :
    load_from_raw (save_data coffees) = .ok coffees := by
  simp only [save_data, load_from_raw, hasKey, List.any_cons, List.any_nil,
    beq_self_eq_true, Bool.true_or, if_true]
  simp only [load_from_new_structure, pyGet, jGetD, if_pos rfl, pyItems,
    Bind.bind, Except.bind]
  have := loadNewGo_save coffees [] (by simp [dictKeys]) hnd
  simpa using this

/-- Witness for C1 on a one-coffee collection with one completed session. -/
theorem claim_C1_witness :
    (dictKeys [("acme|ye",
      { producer := .pyStr "Acme", name := .pyStr "Ye", country := .pyStr "Ethiopia",
        method := .pyStr "Washed", grind_size := .pyStr "Medium",
        brew_sessions :=
          [{ pour_times := .pyList [.pyDict [("weight", .pyInt 60), ("time", .pyInt 30)]],
             notes := .pyStr "bright, floral", rating := .pyInt 87 }] })]).Nodup ∧
    ([("acme|ye",
      { producer := .pyStr "Acme", name := .pyStr "Ye", country := .pyStr "Ethiopia",
        method := .pyStr "Washed", grind_size := .pyStr "Medium",
        brew_sessions :=
          [{ pour_times := .pyList [.pyDict [("weight", .pyInt 60), ("time", .pyInt 30)]],
             notes := .pyStr "bright, floral", rating := .pyInt 87 }] })] : Coffees) ≠ [] ∧
    load_from_raw (save_data [("acme|ye",
      { producer := .pyStr "Acme", name := .pyStr "Ye", country := .pyStr "Ethiopia",
        method := .pyStr "Washed", grind_size := .pyStr "Medium",
        brew_sessions :=
          [{ pour_times := .pyList [.pyDict [("weight", .pyInt 60), ("time", .pyInt 30)]],
             notes := .pyStr "bright, floral", rating := .pyInt 87 }] })]) =
      .ok [("acme|ye",
      { producer := .pyStr "Acme", name := .pyStr "Ye", country := .pyStr "Ethiopia",
        method := .pyStr "Washed", grind_size := .pyStr "Medium",
        brew_sessions :=
          [{ pour_times := .pyList [.pyDict [("weight", .pyInt 60), ("time", .pyInt 30)]],
             notes := .pyStr "bright, floral", rating := .pyInt 87 }] })] := by
  refine ⟨by simp [dictKeys], by simp, ?_⟩
  exact claim_C1 _ (by simp [dictKeys]) (by simp)

theorem jGetD_optField_ne (k' k : String) (o : Option PyVal)
    (rest : List (String × PyVal)) (d : PyVal) (h : k' ≠ k) :
    jGetD (optField k' o ++ rest) k d = jGetD rest k d := by
  cases o <;> simp [optField, jGetD, h]

theorem jGetD_optField_eq (k : String) (o : Option PyVal)
    (rest : List (String × PyVal)) (d : PyVal) :
    jGetD (optField k o ++ rest) k d = o.getD (jGetD rest k d) := by
  cases o <;> simp [optField, jGetD]

theorem jGetD_optField_only_ne (k' k : String) (o : Option PyVal) (d : PyVal)
    (h : k' ≠ k) : jGetD (optField k' o) k d = d := by
  cases o <;> simp [optField, jGetD, h]

theorem jGetD_optField_only_eq (k : String) (o : Option PyVal) (d : PyVal) :
    jGetD (optField k o) k d = o.getD d := by
  cases o <;> simp [optField, jGetD]

theorem legacy_coffee (e : LegacyEntry) :
    pyIndex (encodeLegacy e) "coffee" = .ok (encodeCoffee e) := rfl

theorem encodeCoffee_producer (e : LegacyEntry) :
    pyIndex (encodeCoffee e) "producer" = .ok (.pyStr e.producer) := rfl

theorem encodeCoffee_name (e : LegacyEntry) :
    pyIndex (encodeCoffee e) "name" = .ok (.pyStr e.name) := rfl

theorem encodeCoffee_country (e : LegacyEntry) :
    pyGet (encodeCoffee e) "country" (.pyStr "") =
      .ok (e.country.getD (.pyStr "")) := by
  simp only [pyGet, encodeCoffee, jGetD, jGetD_optField_eq, jGetD_optField_ne]
  simp [jGetD_optField_ne, jGetD_optField_only_ne, jGetD_optField_only_eq, jGetD]

theorem encodeCoffee_method (e : LegacyEntry) :
    pyGet (encodeCoffee e) "method" (.pyStr "") =
      .ok (e.method.getD (.pyStr "")) := by
  simp only [pyGet, encodeCoffee, jGetD, jGetD_optField_eq, jGetD_optField_ne]
  simp [jGetD_optField_ne, jGetD_optField_eq, jGetD_optField_only_ne,
    jGetD_optField_only_eq, jGetD]

theorem encodeCoffee_grind (e : LegacyEntry) :
    pyGet (encodeCoffee e) "grind_size" (.pyStr "") =
      .ok (e.grind_size.getD (.pyStr "")) := by
  simp only [pyGet, encodeCoffee, jGetD, jGetD_optField_eq, jGetD_optField_ne]
  simp [jGetD_optField_ne, jGetD_optField_eq, jGetD_optField_only_ne,
    jGetD_optField_only_eq, jGetD]

theorem legacy_pour_times (e : LegacyEntry) :
    pyGet (encodeLegacy e) "pour_times" (.pyList []) =
      .ok (e.pour_times.getD (.pyList [])) := by
  simp only [pyGet, encodeLegacy, jGetD, jGetD_optField_eq, jGetD_optField_ne]
  simp [jGetD_optField_ne, jGetD_optField_eq, jGetD_optField_only_ne,
    jGetD_optField_only_eq, jGetD]

theorem legacy_notes (e : LegacyEntry) :
    pyGet (encodeLegacy e) "notes" (.pyStr "") = .ok (e.notes.getD (.pyStr "")) := by
  simp only [pyGet, encodeLegacy, jGetD, jGetD_optField_eq, jGetD_optField_ne]
  simp [jGetD_optField_ne, jGetD_optField_eq, jGetD_optField_only_ne,
    jGetD_optField_only_eq, jGetD]

theorem legacy_rating (e : LegacyEntry) :
    pyGet (encodeLegacy e) "rating" (.pyInt 0) = .ok (e.rating.getD (.pyInt 0)) := by
  simp only [pyGet, encodeLegacy, jGetD, jGetD_optField_eq, jGetD_optField_ne]
  simp [jGetD_optField_ne, jGetD_optField_eq, jGetD_optField_only_ne,
    jGetD_optField_only_eq, jGetD]

theorem convertGo_cons (acc : Coffees) (e : LegacyEntry) (rest : List PyVal) :
    convertGo acc (encodeLegacy e :: rest) = convertGo (migrateStep acc e) rest := by
  simp only [convertGo]
  rw [legacy_coffee, exceptBind_ok, encodeCoffee_producer, exceptBind_ok,
    encodeCoffee_name, exceptBind_ok, encodeCoffee_country, exceptBind_ok,
    encodeCoffee_method, exceptBind_ok, encodeCoffee_grind, exceptBind_ok]
  rw [show pyLower (.pyStr e.producer) = .ok (pyLowerStr e.producer) from rfl,
    exceptBind_ok]
  rw [show pyLower (.pyStr e.name) = .ok (pyLowerStr e.name) from rfl,
    exceptBind_ok]
  rw [legacy_pour_times, exceptBind_ok, legacy_notes, exceptBind_ok,
    legacy_rating, exceptBind_ok]
  rfl

theorem convertGo_fold (entries : List LegacyEntry) :
    ∀ acc : Coffees,
      convertGo acc (entries.map encodeLegacy) = .ok (migrateFold acc entries) := by
  induction entries with
  | nil => intro acc; rfl
  | cons e rest ih =>
    intro acc
    rw [List.map_cons, convertGo_cons, migrateFold, ih]

theorem groupUpdate_nil (kv : String × SpecificCoffee) :
    groupUpdate [] kv = kv := by
  obtain ⟨k, r⟩ := kv
  simp [groupUpdate]

theorem groupUpdate_ne (e : LegacyEntry) (es : List LegacyEntry)
    (kv : String × SpecificCoffee) (h : keyOf e ≠ kv.1) :
    groupUpdate (e :: es) kv = groupUpdate es kv := by
  obtain ⟨k, r⟩ := kv
  simp only [groupUpdate, List.filter_cons]
  rw [if_neg (by simpa using h)]

theorem map_groupUpdate_nil (acc : Coffees) :
    acc.map (groupUpdate []) = acc := by
  induction acc with
  | nil => rfl
  | cons kv tl ih => simp [groupUpdate_nil, ih]

theorem dictKeys_insert_some (acc : Coffees) (k : String) (v : SpecificCoffee)
    (sc : SpecificCoffee) (h : dictLookup acc k = some sc) :
    dictKeys (dictInsert acc k v) = dictKeys acc := by
  induction acc with
  | nil => exact Option.noConfusion h
  | cons hd tl ih =>
    obtain ⟨a, b⟩ := hd
    simp only [dictLookup] at h
    by_cases hak : a = k
    · simp [dictInsert, hak, dictKeys]
    · rw [if_neg hak] at h
      simp only [dictInsert, if_neg hak, dictKeys, List.map_cons,
        List.cons.injEq, true_and]
      simpa [dictKeys] using ih h

theorem newKeyIn_insert (acc : Coffees) (k : String) (v : SpecificCoffee)
    (x : LegacyEntry) :
    newKeyIn (dictInsert acc k v) x = (!(keyOf x == k) && newKeyIn acc x) := by
  simp only [newKeyIn, dictLookup_dictInsert]
  by_cases h : k = keyOf x
  · simp [h]
  · rw [if_neg h]
    rw [show (keyOf x == k) = false from
      beq_eq_false_iff_ne.mpr (fun hh => h hh.symm)]
    simp

theorem newKeyIn_insert_some (acc : Coffees) (e : LegacyEntry)
    (v : SpecificCoffee) (sc : SpecificCoffee)
    (hlk : dictLookup acc (keyOf e) = some sc) (x : LegacyEntry) :
    newKeyIn (dictInsert acc (keyOf e) v) x = newKeyIn acc x := by
  rw [newKeyIn_insert]
  by_cases h : keyOf x = keyOf e
  · simp [h, newKeyIn, hlk]
  · simp [h]

theorem filter_and_filter {α : Type} (p q : α → Bool) :
    ∀ l : List α, (l.filter q).filter p = l.filter (fun x => p x && q x) := by
  intro l
  induction l with
  | nil => rfl
  | cons x xs ih =>
    cases hq : q x <;> cases hp : p x <;>
      simp [List.filter_cons, hq, hp, ih]

theorem map_groupUpdate_insert_some (e : LegacyEntry) (rest : List LegacyEntry) :
    ∀ (acc : Coffees) (sc : SpecificCoffee), (dictKeys acc).Nodup →
      dictLookup acc (keyOf e) = some sc →
      (dictInsert acc (keyOf e) (sc.add_brew_session (sessionOf e))).map
          (groupUpdate rest) =
        acc.map (groupUpdate (e :: rest)) := by
  intro acc
  induction acc with
  | nil => intro sc _ h; exact Option.noConfusion h
  | cons hd tl ih =>
    intro sc hnd hlk
    obtain ⟨a, r⟩ := hd
    simp only [dictKeys, List.map_cons, List.nodup_cons] at hnd
    simp only [dictLookup] at hlk
    by_cases hae : a = keyOf e
    · rw [if_pos hae] at hlk
      cases hlk
      simp only [dictInsert, if_pos hae, List.map_cons]
      congr 1
      · simp only [groupUpdate, SpecificCoffee.add_brew_session,
          List.filter_cons, ← hae]
        rw [if_pos (by simp)]
        simp [hae]
      · refine List.map_congr_left ?_
        intro kv hkv
        refine (groupUpdate_ne e rest kv ?_).symm
        intro hk
        exact hnd.1 (by
          rw [← hae] at hk
          rw [hk]
          exact List.mem_map_of_mem Prod.fst hkv)
    · rw [if_neg hae] at hlk
      simp only [dictInsert, if_neg hae, List.map_cons]
      congr 1
      · exact (groupUpdate_ne e rest (a, r)
          (fun h => hae h.symm)).symm
      · exact ih sc hnd.2 hlk

theorem specMigrate_cons (e : LegacyEntry) (l : List LegacyEntry) :
    specMigrate (e :: l) =
      (keyOf e,
        recordOf e
          (sessionOf e ::
            (l.filter (fun x => keyOf x == keyOf e)).map sessionOf)) ::
        specMigrate (l.filter (fun x => keyOf x != keyOf e)) := by
  rw [specMigrate]

theorem migrateFold_spec (entries : List LegacyEntry) :
    ∀ acc : Coffees, (dictKeys acc).Nodup →
      migrateFold acc entries =
        acc.map (groupUpdate entries) ++
          specMigrate (entries.filter (fun e => newKeyIn acc e)) := by
  induction entries with
  | nil =>
    intro acc _
    simp only [migrateFold, List.filter_nil, map_groupUpdate_nil, specMigrate,
      List.append_nil]
  | cons e rest ih =>
    intro acc hnd
    rw [migrateFold]
    cases hlk : dictLookup acc (keyOf e) with
    | some sc =>
      have hstep : migrateStep acc e =
          dictInsert acc (keyOf e) (sc.add_brew_session (sessionOf e)) := by
        simp [migrateStep, hlk]
      have hnd' : (dictKeys (dictInsert acc (keyOf e)
          (sc.add_brew_session (sessionOf e)))).Nodup := by
        rw [dictKeys_insert_some acc (keyOf e) _ sc hlk]
        exact hnd
      rw [hstep, ih _ hnd']
      have hfe : newKeyIn acc e = false := by simp [newKeyIn, hlk]
      have hfilter :
          rest.filter (fun x => newKeyIn (dictInsert acc (keyOf e)
              (sc.add_brew_session (sessionOf e))) x) =
            rest.filter (fun x => newKeyIn acc x) := by
        have hp : (fun x => newKeyIn (dictInsert acc (keyOf e)
            (sc.add_brew_session (sessionOf e))) x) =
            (fun x => newKeyIn acc x) :=
          funext (fun x => newKeyIn_insert_some acc e _ sc hlk x)
        rw [hp]
      rw [hfilter, map_groupUpdate_insert_some e rest acc sc hnd hlk,
        List.filter_cons_of_neg (by simp [hfe])]
    | none =>
      have hstep : migrateStep acc e =
          acc ++ [(keyOf e, recordOf e [sessionOf e])] := by
        simp [migrateStep, hlk, dictInsert_of_lookup_none acc (keyOf e) _ hlk]
      have hknotin : keyOf e ∉ dictKeys acc := (dictLookup_none_iff _ _).mp hlk
      have hnd' : (dictKeys (acc ++ [(keyOf e, recordOf e [sessionOf e])])).Nodup := by
        simp only [dictKeys, List.map_append, List.map_cons, List.map_nil]
        rw [List.nodup_append]
        refine ⟨hnd, List.nodup_singleton _, ?_⟩
        intro a ha hb
        simp only [List.mem_singleton] at hb
        subst hb
        exact hknotin ha
      rw [hstep, ih _ hnd']
      have hte : newKeyIn acc e = true := by simp [newKeyIn, hlk]
      rw [List.filter_cons_of_pos (by simp [hte]), specMigrate_cons]
      rw [List.map_append]
      have hmap : acc.map (groupUpdate rest) = acc.map (groupUpdate (e :: rest)) := by
        refine List.map_congr_left ?_
        intro kv hkv
        refine (groupUpdate_ne e rest kv ?_).symm
        intro hk
        exact hknotin (by
          rw [hk]
          exact List.mem_map_of_mem Prod.fst hkv)
      have hhead : groupUpdate rest (keyOf e, recordOf e [sessionOf e]) =
          (keyOf e,
            recordOf e
              (sessionOf e ::
                ((rest.filter (fun x => newKeyIn acc x)).filter
                  (fun x => keyOf x == keyOf e)).map sessionOf)) := by
        simp only [groupUpdate, recordOf, List.singleton_append]
        rw [filter_and_filter (fun x => keyOf x == keyOf e)
          (fun x => newKeyIn acc x) rest]
        have hpq : (fun x => (keyOf x == keyOf e) && newKeyIn acc x) =
            (fun x => keyOf x == keyOf e) := by
          funext x
          by_cases hx : keyOf x = keyOf e
          · simp [hx, newKeyIn, hlk]
          · simp [hx]
        rw [hpq]
      have htail :
          rest.filter (fun x => newKeyIn (acc ++
              [(keyOf e, recordOf e [sessionOf e])]) x) =
            (rest.filter (fun x => newKeyIn acc x)).filter
              (fun x => keyOf x != keyOf e) := by
        rw [filter_and_filter (fun x => keyOf x != keyOf e)
          (fun x => newKeyIn acc x) rest]
        have hp : (fun x => newKeyIn (acc ++
            [(keyOf e, recordOf e [sessionOf e])]) x) =
            (fun x => (keyOf x != keyOf e) && newKeyIn acc x) := by
          funext x
          rw [← dictInsert_of_lookup_none acc (keyOf e) _ hlk,
            newKeyIn_insert]
          rfl
        rw [hp]
      rw [hmap]
      simp only [List.map_cons, List.map_nil]
      rw [hhead, htail]
      simp

/-- Claim C3 — legacy migration: converting a legacy list groups entries by
the case-insensitive (producer, name) key exactly as the spec describes
(`specMigrate`): one record per distinct key in first-occurrence order, the
record's descriptive fields from the first entry with that key (empty-string
defaults when absent), one appended session per entry in original list order
(with the pour_times/notes/rating defaults).  In particular, a list with two
entries sharing one key (`A|X` and `a|x`) and one distinct entry yields
exactly two records, the shared one holding its two sessions in list order. -/
theorem claim_C3 :
    (∀ entries : List LegacyEntry,
      convert_old_data (entries.map encodeLegacy) = .ok (specMigrate entries)) ∧
    convert_old_data
        (([⟨"A", "X", none, none, none, none, none, some (.pyInt 5)⟩,
           ⟨"B", "Y", some (.pyStr "Kenya"), none, none, none, none, none⟩,
           ⟨"a", "x", none, none, none, none, none, some (.pyInt 9)⟩] :
          List LegacyEntry).map encodeLegacy) =
      .ok [("a|x",
             { producer := .pyStr "A", name := .pyStr "X", country := .pyStr "",
               method := .pyStr "", grind_size := .pyStr "",
               brew_sessions :=
                 [{ pour_times := .pyList [], notes := .pyStr "", rating := .pyInt 5 },
                  { pour_times := .pyList [], notes := .pyStr "", rating := .pyInt 9 }] }),
           ("b|y",
             { producer := .pyStr "B", name := .pyStr "Y", country := .pyStr "Kenya",
               method := .pyStr "", grind_size := .pyStr "",
               brew_sessions :=
                 [{ pour_times := .pyList [], notes := .pyStr "",
                    rating := .pyInt 0 }] })] := by
  constructor
  · intro entries
    show convertGo [] (entries.map encodeLegacy) = _
    rw [convertGo_fold, migrateFold_spec entries [] (by simp [dictKeys])]
    simp [newKeyIn, dictLookup]
  · rfl
